import Mathlib

/-!
# Verification of a fixed-size thread pool (`src/src/lib.rs`)

Shallow embedding of the Rust thread pool library. The embedding has two
layers:

* a pure layer for the data model and the sequential operations
  (`ThreadPool.build`, `ThreadPool.execute`, the `Drop` implementation and
  a single worker thread's receive loop), translated function by function
  from `src/src/lib.rs`;
* a small-step operational layer (`Step`, further below) for the
  concurrent interaction of the worker threads with the shared
  `Arc<Mutex<mpsc::Receiver<Job>>>` handle and the job queue.

Jobs carry no payload relevant to the pool, so they are modelled by
numeric identifiers assigned in submission order.
-/

namespace ThreadPoolLib

/-- Embeds `struct ThreadCountError { caller: &'static str, invalid_val: usize }`
from `src/src/lib.rs`. -/
structure ThreadCountError where
  caller : String
  invalid_val : Nat
deriving DecidableEq, Repr

/-- Embeds the `fmt::Display` implementation for `ThreadCountError`. -/
def ThreadCountError.displayMessage (e : ThreadCountError) : String :=
  e.caller ++ ": Invalid thread count: " ++ toString e.invalid_val ++
    ". Thread count must be a positive number."

/-- Embeds `struct Worker { id: usize, thread: Option<JoinHandle<()>> }`.
The spawned thread's closure captures a clone of the shared
`Arc<Mutex<mpsc::Receiver<Job>>>`; the `receiver` field records the identity
of the channel that clone refers to (all clones of one `Arc` refer to the
same receiver, so equal identifiers mean the same shared handle). -/
structure Worker where
  id : Nat
  receiver : Nat
  thread : Option Unit
deriving DecidableEq, Repr

/-- Embeds `Worker::new(id, receiver)`: stores the id and spawns the thread
(the handle is present: `thread = Some(...)`), the thread holding the given
shared receiver handle. -/
def Worker.new (id : Nat) (receiver : Nat) : Worker :=
  { id := id, receiver := receiver, thread := some () }

/-- Embeds `struct ThreadPool { workers: Vec<Worker>, job_sender: Option<mpsc::Sender<Job>> }`.
The sender is modelled by the identity of the channel it sends into. -/
structure ThreadPool where
  workers : List Worker
  job_sender : Option Nat
deriving DecidableEq, Repr

/-- The identifier of the single mpsc channel created by `build`
(`let (job_sender, job_receiver) = mpsc::channel();`). -/
def theChannel : Nat := 0

/-- Embeds `ThreadPool::build(thread_count)`:
if `thread_count <= 0` it returns `Err(ThreadCountError { caller: "ThreadPool::new()", invalid_val: thread_count })`
before creating the channel or any worker; otherwise it creates one channel,
spawns workers with ids `0..thread_count`, each holding a clone of the
single shared receiver, and returns the pool owning the workers and the
sender. -/
def ThreadPool.build (thread_count : Nat) : Except ThreadCountError ThreadPool :=
  if thread_count ≤ 0 then
    .error { caller := "ThreadPool::new()", invalid_val := thread_count }
  else
    .ok { workers := (List.range thread_count).map (fun id => Worker.new id theChannel),
          job_sender := some theChannel }

/-- State of the mpsc channel as seen by the sender: the queue of pending
job ids (FIFO) and whether the receiving side is still alive (the `Arc`d
receiver is dropped only when every worker thread has exited). -/
structure ChannelState where
  queue : List Nat
  receiverAlive : Bool
deriving DecidableEq, Repr

/-- Outcome of `mpsc::Sender::send`: `Ok` enqueues at the back, `Err` when
the receiver no longer exists. -/
def mpscSend (st : ChannelState) (j : Nat) : Except Unit ChannelState :=
  if st.receiverAlive then .ok { st with queue := st.queue ++ [j] } else .error ()

/-- The ways `ThreadPool::execute` can panic: `self.job_sender.as_ref().unwrap()`
on a `None` sender, or `.send(...).unwrap()` on a closed channel. -/
inductive PanicKind where
  | unwrapNone
  | sendClosed
deriving DecidableEq, Repr

/-- Embeds `ThreadPool::execute(&mut self, job)`:
`self.job_sender.as_ref().unwrap().send(Box::new(job)).unwrap()`.
The boxed job is identified by `j`. A returned `Except.error` models a
panic (the Rust function returns `()`, so no error value ever reaches the
caller); `Except.ok` returns the channel with the job enqueued. -/
def ThreadPool.execute (p : ThreadPool) (st : ChannelState) (j : Nat) :
    Except PanicKind ChannelState :=
  match p.job_sender with
  | none => .error .unwrapNone
  | some _ =>
    match mpscSend st j with
    | .ok st2 => .ok st2
    | .error _ => .error .sendClosed

/-- Observable actions of `ThreadPool`'s `Drop` implementation. -/
inductive DropEvent where
  | dropSender
  | join (id : Nat)
deriving DecidableEq, Repr

/-- Embeds the `for worker in &mut self.workers` loop of `Drop::drop`:
take each worker's handle and `join().expect(...)` it in order. `panicked`
tells, per worker id, whether that worker's thread terminated abnormally
(`join` returned `Err`). Returns the join events that actually happen and
whether the loop itself panicked via `expect`; on the first abnormal join
the `expect` panic unwinds out of the loop, so no later worker is joined. -/
def joinWorkers (panicked : Nat → Bool) : List Worker → List DropEvent × Bool
  | [] => ([], false)
  | w :: rest =>
    match w.thread with
    | none => joinWorkers panicked rest
    | some _ =>
      if panicked w.id then ([.join w.id], true)
      else
        let r := joinWorkers panicked rest
        (.join w.id :: r.1, r.2)

/-- Embeds `Drop::drop` for `ThreadPool`: first
`drop(self.job_sender.take().unwrap())` (panics if the sender is already
gone), then join every worker in construction order. Result: the ordered
list of observable events and whether the teardown panicked. -/
def ThreadPool.dropRun (p : ThreadPool) (panicked : Nat → Bool) :
    List DropEvent × Bool :=
  match p.job_sender with
  | none => ([], true)
  | some _ =>
    let r := joinWorkers panicked p.workers
    (DropEvent.dropSender :: r.1, r.2)

/-- Embeds `eprintln!("Thread {} is starting up", id)` from `Worker::new`. -/
def startupMsg (id : Nat) : String := "Thread " ++ toString id ++ " is starting up"

/-- Embeds `eprintln!("Thread {} is shutting down", id)` from `Worker::new`. -/
def shutdownMsg (id : Nat) : String := "Thread " ++ toString id ++ " is shutting down"

/-- What one iteration of the worker loop observes from
`receiver.lock().unwrap().recv()` followed by running the job:
a job that runs to completion (`ok false`), a job that panics (`ok true`),
the channel reporting closed (`closed`), or a poisoned mutex making
`lock().unwrap()` panic (`poisoned`). -/
inductive RecvOutcome where
  | ok (jobPanics : Bool)
  | closed
  | poisoned
deriving DecidableEq, Repr

/-- How the worker thread's closure ends: `normal` after breaking out on a
closed channel, `panicked` when a job or `unwrap` panicked, `running` when
the given observation list is exhausted with the loop still going. -/
inductive ThreadExit where
  | normal
  | panicked
  | running
deriving DecidableEq, Repr

/-- Embeds the `loop { match receiver.lock().unwrap().recv() { ... } }` body
of the closure spawned in `Worker::new`, driven by the finite list of
observations the thread makes. Returns the diagnostic messages printed by
the loop body and how the thread ends. Only the `Err(_)` arm prints the
shutdown notice before `break`; a panicking job or a poisoned-mutex unwrap
unwinds without printing anything. -/
def workerLoop (id : Nat) : List RecvOutcome → List String × ThreadExit
  | [] => ([], .running)
  | .ok false :: rest => workerLoop id rest
  | .ok true :: _ => ([], .panicked)
  | .poisoned :: _ => ([], .panicked)
  | .closed :: _ => ([shutdownMsg id], .normal)

/-- Embeds the whole closure spawned by `Worker::new`: print the startup
notice, then run the receive loop. -/
def workerThread (id : Nat) (events : List RecvOutcome) : List String × ThreadExit :=
  let r := workerLoop id events
  (startupMsg id :: r.1, r.2)

/-- Returns `true` iff the observation list drives the loop to the `Err(_)` arm:
some prefix of jobs that all run to completion, followed by the channel
reporting closed. -/
def reachesClosed : List RecvOutcome → Bool
  | [] => false
  | .ok false :: rest => reachesClosed rest
  | .ok true :: _ => false
  | .poisoned :: _ => false
  | .closed :: _ => true

/-!
## Operational layer

Interleaving semantics of `n` worker threads running the loop of
`Worker::new` against the shared channel, together with the caller's
`execute` and the drop of the sender.

The crucial point of fidelity: in
`match receiver.lock().unwrap().recv() { Ok(job) => job(), Err(_) => { ... break; } }`
the `MutexGuard` produced in the scrutinee is a temporary whose scope is
the whole `match` expression (Rust drops scrutinee temporaries at the end
of the `match`), so the mutex stays locked while `job()` runs and is
released only when the match ends. The source's own caution note (a
panicking job poisons the mutex for the other workers) depends on exactly
this. Accordingly, in the model a worker holds the lock from the moment
its `recv` returns a job until the job finishes.

Lock acquisition and a successful `recv` are collapsed into one atomic
step: between acquiring the mutex and `recv` returning, the blocked
worker performs no observable action, and no other worker can touch the
receiver.

Jobs are numbered in submission order (`submitted.length` is the next id),
so `submitted` is always `0, 1, 2, ...`. `delivered` records `(worker, job)`
pairs in the order `recv` hands jobs out; `executed` records them in the
order the jobs finish running. Jobs are the completion-recording,
non-panicking jobs of the spec's testable property, so the model has no
panic transition.
-/

/-- Phase of one worker thread inside its loop. -/
inductive WPhase where
  | idle
  | executing (job : Nat)
  | done
deriving DecidableEq, Repr

/-- Global state of the pool system: per-worker phases, the mutex over the
shared receiver, the channel queue, whether the sender still exists, and
the ghost histories of submitted, delivered and executed jobs. -/
structure SysState where
  phase : Nat → WPhase
  lockHolder : Option Nat
  queue : List Nat
  senderOpen : Bool
  submitted : List Nat
  delivered : List (Nat × Nat)
  executed : List (Nat × Nat)

/-- Initial state right after `ThreadPool::build` returns: every worker is
at the top of its loop, the mutex is free, the queue is empty, the sender
is owned by the pool. -/
def initState : SysState :=
  { phase := fun _ => .idle
    lockHolder := none
    queue := []
    senderOpen := true
    submitted := []
    delivered := []
    executed := [] }

/-- One interleaving step of the system with `n` workers.

* `submit`: the caller's `execute` sends the next job; needs the sender.
* `close`: `Drop::drop` drops the sender.
* `recvOk`: an idle worker `w` acquires the free mutex and its `recv`
  returns the front job; the worker starts executing it with the lock
  still held (guard scope = whole match).
* `recvClosed`: an idle worker acquires the free mutex and `recv` reports
  the channel closed (empty queue, sender gone); the worker breaks out of
  its loop, releasing the lock.
* `finish`: the job a worker was executing returns; the match ends, the
  guard is dropped, the worker goes back to the top of its loop. -/
inductive Step (n : Nat) : SysState → SysState → Prop where
  | submit (s : SysState) (hs : s.senderOpen = true) :
      Step n s { s with queue := s.queue ++ [s.submitted.length],
                        submitted := s.submitted ++ [s.submitted.length] }
  | close (s : SysState) :
      Step n s { s with senderOpen := false }
  | recvOk (s : SysState) (w j : Nat) (rest : List Nat)
      (hw : w < n) (hph : s.phase w = .idle) (hl : s.lockHolder = none)
      (hq : s.queue = j :: rest) :
      Step n s { s with queue := rest,
                        lockHolder := some w,
                        phase := fun i => if i = w then .executing j else s.phase i,
                        delivered := s.delivered ++ [(w, j)] }
  | recvClosed (s : SysState) (w : Nat)
      (hw : w < n) (hph : s.phase w = .idle) (hl : s.lockHolder = none)
      (hq : s.queue = []) (hsend : s.senderOpen = false) :
      Step n s { s with phase := fun i => if i = w then .done else s.phase i }
  | finish (s : SysState) (w j : Nat)
      (hph : s.phase w = .executing j) (hl : s.lockHolder = some w) :
      Step n s { s with lockHolder := none,
                        phase := fun i => if i = w then .idle else s.phase i,
                        executed := s.executed ++ [(w, j)] }

/-- Reachability from the freshly built pool under any interleaving. -/
def Reach (n : Nat) (s : SysState) : Prop :=
  Relation.ReflTransGen (Step n) initState s

/-- Inductive invariant of the system. -/
structure Inv (n : Nat) (s : SysState) : Prop where
  lockExec : ∀ w j, s.phase w = .executing j → s.lockHolder = some w
  highIdle : ∀ w, n ≤ w → s.phase w = .idle
  submittedEq : s.submitted = List.range s.submitted.length
  flow : s.submitted = s.delivered.map Prod.snd ++ s.queue
  delivExec : (s.lockHolder = none ∧ s.delivered = s.executed) ∨
      (∃ w j, s.lockHolder = some w ∧ s.phase w = .executing j ∧
        s.delivered = s.executed ++ [(w, j)])
  doneDrained : ∀ w, s.phase w = .done → s.senderOpen = false ∧ s.queue = []

theorem inv_init (n : Nat) : Inv n initState := by
  refine ⟨?_, ?_, ?_, ?_, ?_, ?_⟩
  · intro w j hw
    simp [initState] at hw
  · intro w _
    rfl
  · simp [initState]
  · simp [initState]
  · left
    exact ⟨rfl, rfl⟩
  · intro w hw
    simp [initState] at hw

theorem inv_step {n : Nat} {s t : SysState} (hst : Step n s t) (h : Inv n s) : Inv n t := by
  cases hst with
  | submit hs =>
    refine ⟨h.lockExec, h.highIdle, ?_, ?_, h.delivExec, ?_⟩
    · show s.submitted ++ [s.submitted.length] =
        List.range (s.submitted ++ [s.submitted.length]).length
      rw [List.length_append, List.length_singleton, List.range_succ]
      rw [← h.submittedEq]
    · show s.submitted ++ [s.submitted.length] =
        s.delivered.map Prod.snd ++ (s.queue ++ [s.submitted.length])
      rw [h.flow, List.append_assoc]
    · intro w hw
      exact absurd (h.doneDrained w hw).1 (by simp [hs])
  | close =>
    exact ⟨h.lockExec, h.highIdle, h.submittedEq, h.flow, h.delivExec,
      fun w hw => ⟨rfl, (h.doneDrained w hw).2⟩⟩
  | recvOk w j rest hw hph hl hq =>
    refine ⟨?_, ?_, h.submittedEq, ?_, ?_, ?_⟩
    · intro i j' hi
      by_cases hiw : i = w
      · subst hiw
        rfl
      · rw [show ((if i = w then WPhase.executing j else s.phase i) = .executing j') =
            (s.phase i = .executing j') by rw [if_neg hiw]] at hi
        have hc := h.lockExec i j' hi
        rw [hl] at hc
        exact absurd hc (by simp)
    · intro i hni
      have hiw : i ≠ w := by omega
      show (if i = w then WPhase.executing j else s.phase i) = .idle
      rw [if_neg hiw]
      exact h.highIdle i hni
    · show s.submitted = (s.delivered ++ [(w, j)]).map Prod.snd ++ rest
      rw [h.flow, hq, List.map_append]
      simp
    · right
      refine ⟨w, j, rfl, ?_, ?_⟩
      · show (if w = w then WPhase.executing j else s.phase w) = .executing j
        rw [if_pos rfl]
      · rcases h.delivExec with ⟨_, hde⟩ | ⟨w', j', hlk, _, _⟩
        · show s.delivered ++ [(w, j)] = s.executed ++ [(w, j)]
          rw [hde]
        · rw [hl] at hlk
          exact absurd hlk (by simp)
    · intro i hi
      by_cases hiw : i = w
      · rw [show ((if i = w then WPhase.executing j else s.phase i) = .done) =
            (WPhase.executing j = .done) by rw [if_pos hiw]] at hi
        exact absurd hi (by simp)
      · rw [show ((if i = w then WPhase.executing j else s.phase i) = .done) =
            (s.phase i = .done) by rw [if_neg hiw]] at hi
        have hd := (h.doneDrained i hi).2
        rw [hq] at hd
        exact absurd hd (by simp)
  | recvClosed w hw hph hl hq hsend =>
    refine ⟨?_, ?_, h.submittedEq, h.flow, ?_, ?_⟩
    · intro i j' hi
      by_cases hiw : i = w
      · rw [show ((if i = w then WPhase.done else s.phase i) = .executing j') =
            (WPhase.done = .executing j') by rw [if_pos hiw]] at hi
        exact absurd hi (by simp)
      · rw [show ((if i = w then WPhase.done else s.phase i) = .executing j') =
            (s.phase i = .executing j') by rw [if_neg hiw]] at hi
        exact h.lockExec i j' hi
    · intro i hni
      have hiw : i ≠ w := by omega
      show (if i = w then WPhase.done else s.phase i) = .idle
      rw [if_neg hiw]
      exact h.highIdle i hni
    · rcases h.delivExec with ⟨h1, h2⟩ | ⟨w', j', hlk, _, _⟩
      · left
        exact ⟨h1, h2⟩
      · rw [hl] at hlk
        exact absurd hlk (by simp)
    · intro i hi
      by_cases hiw : i = w
      · exact ⟨hsend, hq⟩
      · rw [show ((if i = w then WPhase.done else s.phase i) = .done) =
            (s.phase i = .done) by rw [if_neg hiw]] at hi
        exact h.doneDrained i hi
  | finish w j hph hl =>
    refine ⟨?_, ?_, h.submittedEq, h.flow, ?_, ?_⟩
    · intro i j' hi
      by_cases hiw : i = w
      · rw [show ((if i = w then WPhase.idle else s.phase i) = .executing j') =
            (WPhase.idle = .executing j') by rw [if_pos hiw]] at hi
        exact absurd hi (by simp)
      · rw [show ((if i = w then WPhase.idle else s.phase i) = .executing j') =
            (s.phase i = .executing j') by rw [if_neg hiw]] at hi
        have hc := h.lockExec i j' hi
        rw [hl] at hc
        exact absurd (Option.some.inj hc).symm hiw
    · intro i hni
      by_cases hiw : i = w
      · show (if i = w then WPhase.idle else s.phase i) = .idle
        rw [if_pos hiw]
      · show (if i = w then WPhase.idle else s.phase i) = .idle
        rw [if_neg hiw]
        exact h.highIdle i hni
    · rcases h.delivExec with ⟨h1, _⟩ | ⟨w', j', hlk, hex, hdel⟩
      · rw [hl] at h1
        exact absurd h1 (by simp)
      · left
        refine ⟨rfl, ?_⟩
        rw [hl] at hlk
        have hww : w = w' := Option.some.inj hlk
        subst hww
        rw [hph] at hex
        have hjj : j = j' := by
          cases hex
          rfl
        subst hjj
        exact hdel
    · intro i hi
      by_cases hiw : i = w
      · rw [show ((if i = w then WPhase.idle else s.phase i) = .done) =
            (WPhase.idle = .done) by rw [if_pos hiw]] at hi
        exact absurd hi (by simp)
      · rw [show ((if i = w then WPhase.idle else s.phase i) = .done) =
            (s.phase i = .done) by rw [if_neg hiw]] at hi
        exact h.doneDrained i hi

theorem inv_reach {n : Nat} {s : SysState} (h : Reach n s) : Inv n s := by
  induction h with
  | refl => exact inv_init n
  | tail _ h2 ih => exact inv_step h2 ih

/-!
## Claim theorems
-/

/-- The workers constructed by the error-free branch of `build` are absent
from the error branch: an `Err` result carries no worker at all. -/
def spawnedWorkers : Except ThreadCountError ThreadPool → List Worker
  | .error _ => []
  | .ok p => p.workers

/-- Claim C3, counterexample: at the concrete input `thread_count = 0`,
`build` does return a `ThreadCountError` with `invalid_val = 0`, but the
operation name it carries is the stale string `"ThreadPool::new()"`, which
is not the name of the constructing operation `build`. -/
theorem build_zero_counterexample :
    ThreadPool.build 0 =
      .error { caller := "ThreadPool::new()", invalid_val := 0 } ∧
    ({ caller := "ThreadPool::new()", invalid_val := 0 : ThreadCountError }.caller ≠
      "ThreadPool::build" ∧
     { caller := "ThreadPool::new()", invalid_val := 0 : ThreadCountError }.caller ≠
      "build") := by
  refine ⟨rfl, ?_, ?_⟩ <;> decide

/-- Claim C3, amended: for `thread_count = 0`, `build` returns (it does not
panic) a `ThreadCountError` carrying the offending value `0` and the caller
label `"ThreadPool::new()"`, and spawns no worker; for every
`thread_count > 0` the error branch is not taken. -/
theorem build_zero_error (n : Nat) (hn : 0 < n) :
    ThreadPool.build 0 =
      .error { caller := "ThreadPool::new()", invalid_val := 0 } ∧
    spawnedWorkers (ThreadPool.build 0) = [] ∧
    (∃ p, ThreadPool.build n = .ok p) := by
  refine ⟨rfl, rfl, ?_⟩
  have h : ¬ n ≤ 0 := by omega
  exact ⟨_, by rw [ThreadPool.build, if_neg h]⟩

/-- Claim C3, witness at `thread_count = 3`. -/
theorem build_zero_error_witness :
    ThreadPool.build 0 =
      .error { caller := "ThreadPool::new()", invalid_val := 0 } ∧
    spawnedWorkers (ThreadPool.build 0) = [] ∧
    (∃ p, ThreadPool.build 3 = .ok p) :=
  build_zero_error 3 (by decide)

/-- Claim C4: for every `thread_count > 0`, `build` succeeds, the pool owns
exactly `thread_count` workers, each worker's thread was spawned and holds
the single shared receiver handle of the one channel created, and the pool
holds the producer handle of that same channel. -/
theorem build_pos_spec (n : Nat) (hn : 0 < n) :
    ∃ p, ThreadPool.build n = .ok p ∧
      p.workers.length = n ∧
      p.job_sender = some theChannel ∧
      (∀ w ∈ p.workers, w.receiver = theChannel ∧ w.thread = some ()) := by
  have h : ¬ n ≤ 0 := by omega
  refine ⟨_, by rw [ThreadPool.build, if_neg h], ?_, rfl, ?_⟩
  · simp
  · intro w hw
    simp only [List.mem_map, List.mem_range] at hw
    obtain ⟨i, _, hi⟩ := hw
    rw [← hi]
    exact ⟨rfl, rfl⟩

/-- Claim C4, witness at `thread_count = 3`. -/
theorem build_pos_spec_witness :
    ∃ p, ThreadPool.build 3 = .ok p ∧
      p.workers.length = 3 ∧
      p.job_sender = some theChannel ∧
      (∀ w ∈ p.workers, w.receiver = theChannel ∧ w.thread = some ()) :=
  build_pos_spec 3 (by decide)

/-- Claim C9: every successful `build(thread_count)` assigns the workers the
ids `0, 1, ..., thread_count - 1` in construction order, and these ids are
pairwise distinct. -/
theorem build_worker_ids (n : Nat) (p : ThreadPool)
    (h : ThreadPool.build n = .ok p) :
    p.workers.map Worker.id = List.range n ∧
    (p.workers.map Worker.id).Nodup := by
  by_cases hn : n ≤ 0
  · rw [ThreadPool.build, if_pos hn] at h
    exact absurd h (by simp)
  · rw [ThreadPool.build, if_neg hn] at h
    have hp : p = { workers := (List.range n).map (fun id => Worker.new id theChannel),
                    job_sender := some theChannel } := by
      cases h
      rfl
    subst hp
    have hm : ((List.range n).map (fun id => Worker.new id theChannel)).map Worker.id =
        List.range n := by
      rw [List.map_map]
      exact List.map_id'' (fun _ => rfl) _
    refine ⟨hm, ?_⟩
    rw [hm]
    exact List.nodup_range n

/-- Claim C9, witness at `thread_count = 2`. -/
theorem build_worker_ids_witness :
    ({ workers := [Worker.new 0 theChannel, Worker.new 1 theChannel],
       job_sender := some theChannel } : ThreadPool).workers.map Worker.id =
      List.range 2 ∧
    (({ workers := [Worker.new 0 theChannel, Worker.new 1 theChannel],
        job_sender := some theChannel } : ThreadPool).workers.map Worker.id).Nodup :=
  build_worker_ids 2 _ rfl

theorem joinWorkers_clean (panicked : Nat → Bool) (ids : List Nat)
    (ws : List Worker) (h : ∀ i ∈ ids, panicked i = false) :
    joinWorkers panicked ((ids.map (fun i => Worker.new i theChannel)) ++ ws) =
      (ids.map DropEvent.join ++ (joinWorkers panicked ws).1,
       (joinWorkers panicked ws).2) := by
  induction ids with
  | nil => simp [joinWorkers]
  | cons i ids ih =>
    have hi : panicked i = false := h i (by simp)
    have ih2 := ih (fun x hx => h x (by simp [hx]))
    simp only [Worker.new] at ih2
    simp [joinWorkers, Worker.new, hi, ih2]

theorem joinWorkers_hits_panic (panicked : Nat → Bool) (ids : List Nat)
    (h : ∃ i ∈ ids, panicked i = true) :
    (joinWorkers panicked (ids.map (fun i => Worker.new i theChannel))).2 = true := by
  induction ids with
  | nil => simp at h
  | cons i ids ih =>
    by_cases hpi : panicked i = true
    · simp [joinWorkers, Worker.new, hpi]
    · obtain ⟨x, hx, hpx⟩ := h
      simp only [List.mem_cons] at hx
      rcases hx with hx | hx
      · rw [hx] at hpx
        exact absurd hpx hpi
      · have h2 := ih ⟨x, hx, hpx⟩
        simp only [Worker.new] at h2
        simp [joinWorkers, Worker.new, hpi, h2]

/-- Claim C5: on any pool returned by `build`, teardown whose workers all
terminated normally first drops the producer handle — it is the first event
and occurs exactly once — and only then joins every worker's thread in
construction order `0, 1, ..., n-1`, without itself panicking. -/
theorem drop_order (n : Nat) (p : ThreadPool) (panicked : Nat → Bool)
    (hp : ThreadPool.build n = .ok p) (hok : ∀ i, panicked i = false) :
    p.dropRun panicked =
      (DropEvent.dropSender :: (List.range n).map DropEvent.join, false) ∧
    (p.dropRun panicked).1.head? = some DropEvent.dropSender ∧
    (p.dropRun panicked).1.count DropEvent.dropSender = 1 := by
  by_cases hn : n ≤ 0
  · rw [ThreadPool.build, if_pos hn] at hp
    exact absurd hp (by simp)
  · rw [ThreadPool.build, if_neg hn] at hp
    have hpe : p = { workers := (List.range n).map (fun id => Worker.new id theChannel),
                     job_sender := some theChannel } := by
      cases hp
      rfl
    subst hpe
    have hj := joinWorkers_clean panicked (List.range n) [] (fun i _ => hok i)
    rw [List.append_nil] at hj
    have hev : ThreadPool.dropRun
        { workers := (List.range n).map (fun id => Worker.new id theChannel),
          job_sender := some theChannel } panicked =
        (DropEvent.dropSender :: (List.range n).map DropEvent.join, false) := by
      show (DropEvent.dropSender ::
        (joinWorkers panicked ((List.range n).map (fun id => Worker.new id theChannel))).1,
        (joinWorkers panicked ((List.range n).map (fun id => Worker.new id theChannel))).2) = _
      rw [hj]
      simp [joinWorkers]
    refine ⟨hev, ?_, ?_⟩
    · rw [hev]
      rfl
    · rw [hev]
      simp [List.count_cons, List.count_eq_zero]

/-- Claim C5, witness: a two-worker pool with no panicked worker. -/
theorem drop_order_witness :
    ThreadPool.dropRun
        { workers := [Worker.new 0 theChannel, Worker.new 1 theChannel],
          job_sender := some theChannel } (fun _ => false) =
      (DropEvent.dropSender :: (List.range 2).map DropEvent.join, false) ∧
    (ThreadPool.dropRun
        { workers := [Worker.new 0 theChannel, Worker.new 1 theChannel],
          job_sender := some theChannel } (fun _ => false)).1.head? =
      some DropEvent.dropSender ∧
    (ThreadPool.dropRun
        { workers := [Worker.new 0 theChannel, Worker.new 1 theChannel],
          job_sender := some theChannel } (fun _ => false)).1.count
      DropEvent.dropSender = 1 :=
  drop_order 2 _ (fun _ => false) rfl (fun _ => rfl)

/-- Claim C6: if any worker of a built pool terminated abnormally (its
thread panicked), the teardown itself panics at join time rather than
completing silently. -/
theorem drop_detects_panic (n k : Nat) (p : ThreadPool) (panicked : Nat → Bool)
    (hp : ThreadPool.build n = .ok p) (hk : k < n) (hpk : panicked k = true) :
    (p.dropRun panicked).2 = true := by
  by_cases hn : n ≤ 0
  · rw [ThreadPool.build, if_pos hn] at hp
    exact absurd hp (by simp)
  · rw [ThreadPool.build, if_neg hn] at hp
    have hpe : p = { workers := (List.range n).map (fun id => Worker.new id theChannel),
                     job_sender := some theChannel } := by
      cases hp
      rfl
    subst hpe
    show (joinWorkers panicked ((List.range n).map (fun id => Worker.new id theChannel))).2 = true
    exact joinWorkers_hits_panic panicked (List.range n)
      ⟨k, List.mem_range.mpr hk, hpk⟩

/-- Claim C6, witness: a two-worker pool whose worker `1` panicked. -/
theorem drop_detects_panic_witness :
    (ThreadPool.dropRun
        { workers := [Worker.new 0 theChannel, Worker.new 1 theChannel],
          job_sender := some theChannel } (fun i => i == 1)).2 = true :=
  drop_detects_panic 2 1 _ (fun i => i == 1) rfl (by decide) rfl

/-- Claim C10: teardown panics at the join of the first worker (in
construction order) whose thread terminated abnormally: the joins that
happen are exactly those of workers `0 .. k`, and no worker after `k` is
joined. -/
theorem drop_stops_at_first_panic (n k : Nat) (p : ThreadPool)
    (panicked : Nat → Bool) (hp : ThreadPool.build n = .ok p) (hk : k < n)
    (hpk : panicked k = true) (hfirst : ∀ j, j < k → panicked j = false) :
    (p.dropRun panicked).1 =
      DropEvent.dropSender :: (List.range (k + 1)).map DropEvent.join ∧
    (p.dropRun panicked).2 = true ∧
    (∀ m, k < m → DropEvent.join m ∉ (p.dropRun panicked).1) := by
  by_cases hn : n ≤ 0
  · rw [ThreadPool.build, if_pos hn] at hp
    exact absurd hp (by simp)
  · rw [ThreadPool.build, if_neg hn] at hp
    have hpe : p = { workers := (List.range n).map (fun id => Worker.new id theChannel),
                     job_sender := some theChannel } := by
      cases hp
      rfl
    subst hpe
    have hsplit : List.range n =
        List.range k ++ (k :: (List.range (n - (k + 1))).map (fun x => (k + 1) + x)) := by
      have h1 : n = (k + 1) + (n - (k + 1)) := by omega
      rw [h1, List.range_add, List.range_succ]
      simp
    have hclean : ∀ i ∈ List.range k, panicked i = false := by
      intro i hi
      exact hfirst i (List.mem_range.mp hi)
    have htail : joinWorkers panicked
        ((k :: (List.range (n - (k + 1))).map (fun x => (k + 1) + x)).map
          (fun i => Worker.new i theChannel)) = ([DropEvent.join k], true) := by
      simp [joinWorkers, Worker.new, hpk]
    have hjoin : joinWorkers panicked
        ((List.range n).map (fun i => Worker.new i theChannel)) =
        ((List.range k).map DropEvent.join ++ [DropEvent.join k], true) := by
      rw [hsplit, List.map_append]
      rw [joinWorkers_clean panicked (List.range k) _ hclean, htail]
    have hev : ThreadPool.dropRun
        { workers := (List.range n).map (fun id => Worker.new id theChannel),
          job_sender := some theChannel } panicked =
        (DropEvent.dropSender :: (List.range (k + 1)).map DropEvent.join, true) := by
      show (DropEvent.dropSender ::
        (joinWorkers panicked ((List.range n).map (fun id => Worker.new id theChannel))).1,
        (joinWorkers panicked ((List.range n).map (fun id => Worker.new id theChannel))).2) = _
      rw [hjoin, List.range_succ]
      simp
    refine ⟨by rw [hev], by rw [hev], ?_⟩
    intro m hm hmem
    rw [hev] at hmem
    simp only [List.mem_cons, List.mem_map, List.mem_range] at hmem
    rcases hmem with hmem | ⟨x, hx, hxm⟩
    · exact absurd hmem (by simp)
    · have : x = m := by
        have := DropEvent.join.inj hxm
        omega
      omega

/-- Claim C10, witness: three workers, worker `1` panicked first: only
workers `0` and `1` are joined, worker `2` is not. -/
theorem drop_stops_at_first_panic_witness :
    (ThreadPool.dropRun
        { workers := [Worker.new 0 theChannel, Worker.new 1 theChannel,
                      Worker.new 2 theChannel],
          job_sender := some theChannel } (fun i => i == 1)).1 =
      DropEvent.dropSender :: (List.range (1 + 1)).map DropEvent.join ∧
    (ThreadPool.dropRun
        { workers := [Worker.new 0 theChannel, Worker.new 1 theChannel,
                      Worker.new 2 theChannel],
          job_sender := some theChannel } (fun i => i == 1)).2 = true ∧
    (∀ m, 1 < m → DropEvent.join m ∉
      (ThreadPool.dropRun
        { workers := [Worker.new 0 theChannel, Worker.new 1 theChannel,
                      Worker.new 2 theChannel],
          job_sender := some theChannel } (fun i => i == 1)).1) :=
  drop_stops_at_first_panic 3 1 _ (fun i => i == 1) rfl (by decide) rfl
    (fun j hj => by
      interval_cases j
      rfl)

/-- Claim C7: `execute` sends the job on the producer handle — while the
pool holds the sender and the receiving side exists, the job is enqueued at
the back of the channel; if the send fails because the channel is closed,
`execute` panics (modelled by `Except.error PanicKind.sendClosed`) — the
Rust function returns `()`, so no recoverable error value ever reaches the
caller. -/
theorem execute_spec (p : ThreadPool) (st : ChannelState) (j c : Nat)
    (hs : p.job_sender = some c) :
    (st.receiverAlive = true →
      p.execute st j = .ok { st with queue := st.queue ++ [j] }) ∧
    (st.receiverAlive = false →
      p.execute st j = .error PanicKind.sendClosed) := by
  constructor <;> intro h <;> simp [ThreadPool.execute, hs, mpscSend, h]

/-- Claim C7, witness: a pool holding the sender; on a live channel the job
is enqueued, on a closed channel `execute` panics. -/
theorem execute_spec_witness :
    ((⟨[], false⟩ : ChannelState).receiverAlive = true →
      ThreadPool.execute ⟨[], some theChannel⟩ ⟨[], false⟩ 5 =
        .ok { (⟨[], false⟩ : ChannelState) with queue := [] ++ [5] }) ∧
    ((⟨[], false⟩ : ChannelState).receiverAlive = false →
      ThreadPool.execute ⟨[], some theChannel⟩ ⟨[], false⟩ 5 =
        .error PanicKind.sendClosed) :=
  execute_spec ⟨[], some theChannel⟩ ⟨[], false⟩ 5 theChannel rfl

theorem workerLoop_spec (id : Nat) :
    ∀ events : List RecvOutcome,
      ((workerLoop id events).2 = .normal →
        (workerLoop id events).1 = [shutdownMsg id]) ∧
      ((workerLoop id events).2 ≠ .normal → (workerLoop id events).1 = []) ∧
      ((workerLoop id events).2 = .normal ↔ reachesClosed events = true)
  | [] => by simp [workerLoop, reachesClosed]
  | .ok false :: rest => by
      simpa [workerLoop, reachesClosed] using workerLoop_spec id rest
  | .ok true :: rest => by simp [workerLoop, reachesClosed]
  | .poisoned :: rest => by simp [workerLoop, reachesClosed]
  | .closed :: rest => by simp [workerLoop, reachesClosed]

/-- Claim C8: the worker thread is the single receive loop of `Worker::new`:
it first emits the startup notice identifying itself by id; it terminates
normally exactly when the loop reaches the channel-closed signal after a
run of jobs that all complete, and in that case (and only then) it also
emits the shutdown notice; on every other exit path (a panicking job, a
poisoned-mutex unwrap, or the loop still running) no shutdown notice is
emitted. -/
theorem workerThread_spec (id : Nat) (events : List RecvOutcome) :
    ((workerThread id events).2 = .normal →
      (workerThread id events).1 = [startupMsg id, shutdownMsg id]) ∧
    ((workerThread id events).2 ≠ .normal →
      (workerThread id events).1 = [startupMsg id]) ∧
    ((workerThread id events).2 = .normal ↔ reachesClosed events = true) := by
  obtain ⟨h1, h2, h3⟩ := workerLoop_spec id events
  refine ⟨?_, ?_, ?_⟩
  · intro h
    show startupMsg id :: (workerLoop id events).1 = _
    rw [h1 h]
  · intro h
    show startupMsg id :: (workerLoop id events).1 = _
    rw [h2 h]
  · exact h3

/-- Claim C8, witness: a worker that runs one completing job and then sees
the channel close terminates normally with exactly the startup and
shutdown notices. -/
theorem workerThread_spec_witness :
    ((workerThread 0 [RecvOutcome.ok false, RecvOutcome.closed]).2 = .normal →
      (workerThread 0 [RecvOutcome.ok false, RecvOutcome.closed]).1 =
        [startupMsg 0, shutdownMsg 0]) ∧
    ((workerThread 0 [RecvOutcome.ok false, RecvOutcome.closed]).2 ≠ .normal →
      (workerThread 0 [RecvOutcome.ok false, RecvOutcome.closed]).1 =
        [startupMsg 0]) ∧
    ((workerThread 0 [RecvOutcome.ok false, RecvOutcome.closed]).2 = .normal ↔
      reachesClosed [RecvOutcome.ok false, RecvOutcome.closed] = true) :=
  workerThread_spec 0 [RecvOutcome.ok false, RecvOutcome.closed]

theorem nodup_snd_unique {l : List (Nat × Nat)} (h : (l.map Prod.snd).Nodup)
    {w j w' : Nat} (h1 : (w, j) ∈ l) (h2 : (w', j) ∈ l) : w = w' := by
  induction l with
  | nil => simp at h1
  | cons a l ih =>
    rw [List.map_cons, List.nodup_cons] at h
    simp only [List.mem_cons] at h1 h2
    rcases h1 with h1 | h1 <;> rcases h2 with h2 | h2
    · rw [← h1] at h2
      exact (Prod.mk.injEq _ _ _ _ ▸ h2).1.symm
    · exfalso
      apply h.1
      rw [← h1]
      exact List.mem_map.mpr ⟨(w', j), h2, rfl⟩
    · exfalso
      apply h.1
      rw [← h2]
      exact List.mem_map.mpr ⟨(w, j), h1, rfl⟩
    · exact ih h.2 h1 h2

/-- Claim C1: for every number of workers `n > 0` and every interleaving
that runs from a fresh pool to completed teardown (all workers have left
their loop), the jobs are handed out from the shared queue in FIFO
submission order (`delivered` ids = the submission sequence), every
executed hand-out is also finished (`executed = delivered`), the submitted
ids are pairwise distinct, and every submitted job is executed by exactly
one worker, exactly once. -/
theorem all_jobs_executed_once (n : Nat) (s : SysState) (hr : Reach n s)
    (hn : 0 < n) (hdone : ∀ w, w < n → s.phase w = .done) :
    s.delivered.map Prod.snd = s.submitted ∧
    s.executed = s.delivered ∧
    s.submitted = List.range s.submitted.length ∧
    s.submitted.Nodup ∧
    (∀ j ∈ s.submitted, ∃ w, (w, j) ∈ s.executed ∧
      ∀ w', (w', j) ∈ s.executed → w' = w) := by
  have hinv := inv_reach hr
  have hq : s.queue = [] := (hinv.doneDrained 0 (hdone 0 hn)).2
  have hde : s.delivered = s.executed := by
    rcases hinv.delivExec with ⟨_, h2⟩ | ⟨w, j, _, hex, _⟩
    · exact h2
    · by_cases hwn : w < n
      · rw [hdone w hwn] at hex
        exact absurd hex (by simp)
      · rw [hinv.highIdle w (by omega)] at hex
        exact absurd hex (by simp)
  have hflow := hinv.flow
  rw [hq, List.append_nil] at hflow
  have hnd : s.submitted.Nodup := by
    rw [hinv.submittedEq]
    exact List.nodup_range _
  refine ⟨hflow.symm, hde.symm, hinv.submittedEq, hnd, ?_⟩
  have hexmap : s.executed.map Prod.snd = s.submitted := by
    rw [← hde]
    exact hflow.symm
  have hndexec : (s.executed.map Prod.snd).Nodup := by
    rw [hexmap]
    exact hnd
  intro j hj
  rw [← hexmap] at hj
  obtain ⟨q, hq1, hq2⟩ := List.mem_map.mp hj
  have hmem : (q.1, j) ∈ s.executed := by
    rw [← hq2]
    exact hq1
  exact ⟨q.1, hmem, fun w' hw' => nodup_snd_unique hndexec hw' hmem⟩

/-- The state reached in a one-worker pool by: submit one job, drop the
sender, hand the job to worker `0`, run it to completion, then let the
worker observe the closed channel and leave its loop. -/
def demoFinal : SysState :=
  { phase := fun i => if i = 0 then WPhase.done else
      (if i = 0 then WPhase.idle else
        (if i = 0 then WPhase.executing 0 else WPhase.idle))
    lockHolder := none
    queue := []
    senderOpen := false
    submitted := [0]
    delivered := [(0, 0)]
    executed := [(0, 0)] }

theorem demoFinal_reach : Reach 1 demoFinal := by
  refine Relation.ReflTransGen.head (Step.submit initState rfl) ?_
  refine Relation.ReflTransGen.head (Step.close _) ?_
  refine Relation.ReflTransGen.head (Step.recvOk _ 0 0 [] (by decide) rfl rfl rfl) ?_
  refine Relation.ReflTransGen.head (Step.finish _ 0 0 rfl rfl) ?_
  refine Relation.ReflTransGen.head (Step.recvClosed _ 0 (by decide) rfl rfl rfl rfl) ?_
  exact Relation.ReflTransGen.refl

/-- Claim C1, witness: in the one-worker run of `demoFinal_reach`, the
single submitted job `0` was handed out in order, executed once, by
exactly one worker. -/
theorem all_jobs_executed_once_witness :
    demoFinal.delivered.map Prod.snd = demoFinal.submitted ∧
    demoFinal.executed = demoFinal.delivered ∧
    demoFinal.submitted = List.range demoFinal.submitted.length ∧
    demoFinal.submitted.Nodup ∧
    (∀ j ∈ demoFinal.submitted, ∃ w, (w, j) ∈ demoFinal.executed ∧
      ∀ w', (w', j) ∈ demoFinal.executed → w' = w) :=
  all_jobs_executed_once 1 demoFinal demoFinal_reach (by decide) (by decide)

/-- The possibility the claim asserts for a pool with more than one worker:
some interleaving reaches a state where two distinct workers are both
executing a job. -/
def concurrentExecPossible (n : Nat) : Prop :=
  ∃ s, Reach n s ∧ ∃ w1 j1 w2 j2, w1 ≠ w2 ∧
    s.phase w1 = WPhase.executing j1 ∧ s.phase w2 = WPhase.executing j2

/-- Claim C2, counterexample at `thread_count = 2`: no interleaving of the
two-worker pool ever has two workers executing jobs concurrently, because
the `MutexGuard` obtained for `recv` is a temporary of the `match`
scrutinee and is held until the job finishes. -/
theorem no_concurrent_execution : concurrentExecPossible 2 = False := by
  apply eq_false
  rintro ⟨s, hr, w1, j1, w2, j2, hne, h1, h2⟩
  have hinv := inv_reach hr
  have e1 := hinv.lockExec w1 j1 h1
  have e2 := hinv.lockExec w2 j2 h2
  rw [e1] at e2
  exact hne (Option.some.inj e2)

/-- Claim C2, amended: the workers are parallel threads, but the mutual
exclusion over the shared receiver covers the whole
`match receiver.lock().unwrap().recv() { Ok(job) => job(), ... }`
expression, not just the pop: in every reachable state of every pool, a
worker executing a job holds the lock, and hence at most one worker is
executing a job at any time. -/
theorem executing_holds_lock (n : Nat) (s : SysState) (hr : Reach n s) :
    (∀ w j, s.phase w = WPhase.executing j → s.lockHolder = some w) ∧
    (∀ w1 j1 w2 j2, s.phase w1 = WPhase.executing j1 →
      s.phase w2 = WPhase.executing j2 → w1 = w2) := by
  have hinv := inv_reach hr
  refine ⟨hinv.lockExec, ?_⟩
  intro w1 j1 w2 j2 h1 h2
  have e1 := hinv.lockExec w1 j1 h1
  have e2 := hinv.lockExec w2 j2 h2
  rw [e1] at e2
  exact Option.some.inj e2

/-- The state of a two-worker pool in which worker `0` is executing job `0`
while holding the lock. -/
def demoMid : SysState :=
  { phase := fun i => if i = 0 then WPhase.executing 0 else WPhase.idle
    lockHolder := some 0
    queue := []
    senderOpen := true
    submitted := [0]
    delivered := [(0, 0)]
    executed := [] }

theorem demoMid_reach : Reach 2 demoMid := by
  refine Relation.ReflTransGen.head (Step.submit initState rfl) ?_
  refine Relation.ReflTransGen.head (Step.recvOk _ 0 0 [] (by decide) rfl rfl rfl) ?_
  exact Relation.ReflTransGen.refl

/-- Claim C2, witness: in the reachable state `demoMid` of the two-worker
pool, the executing worker holds the lock and is the only one executing. -/
theorem executing_holds_lock_witness :
    (∀ w j, demoMid.phase w = WPhase.executing j → demoMid.lockHolder = some w) ∧
    (∀ w1 j1 w2 j2, demoMid.phase w1 = WPhase.executing j1 →
      demoMid.phase w2 = WPhase.executing j2 → w1 = w2) :=
  executing_holds_lock 2 demoMid demoMid_reach

end ThreadPoolLib
